import Mathlib

/-!
Verification of the echo service in
`src/exercises/08_futures/05_blocking/src/lib.rs` and of the
`TicketTitle` conversions in
`src/exercises/05_ticket_v2/15_outro/src/title.rs`.

The echo service is embedded as pure functions over explicit scripts of
external events: each accepted connection carries a script describing
what the peer sends (the chunks delivered by successive reads), whether
the handle conversion calls fail, and whether the read or the write side
fails.  The accept loop `echo` consumes a finite list of accept events
and returns the loop outcome together with the list of units of work it
dispatched (one per cleanly converted connection, each with its own
fresh buffer); the dispatched work itself is the function `runTask`,
whose result the loop never consumes.

Rust strings are modelled as their byte sequences (`List Nat`), since
`String::len` and `str::len` count bytes.
-/

/-- A byte. The concrete values never influence control flow. -/
abbrev Byte := Nat

/-- An abstract I/O error (`std::io::Error` / `anyhow::Error`),
identified by a message. -/
structure IoError where
  msg : String
deriving DecidableEq

/-- Observable I/O actions a unit of work performs on its connection. -/
inductive IoAction
  | readChunk (c : List Byte)
  | readEof
  | writeAll (data : List Byte)
deriving DecidableEq

/-- The externally determined behaviour of one connection: the chunks
successive reads deliver, whether the read side fails after those chunks
instead of signalling end-of-input, and whether `write_all` fails. -/
structure ConnScript where
  reads : List (List Byte)
  readErr : Option IoError
  writeErr : Option IoError
deriving DecidableEq

/-- `Read::read_to_end(&mut buffer)`: read repeatedly, appending each
chunk to the buffer, until the peer signals end-of-input (result `Ok`
with the filled buffer) or a read fails (result `Err`).  Also returns
the trace of I/O actions performed. -/
def read_to_end : List (List Byte) → Option IoError → List Byte →
    Except IoError (List Byte) × List IoAction
  | [], none, buffer => (.ok buffer, [.readEof])
  | [], some e, _ => (.error e, [])
  | c :: rest, rerr, buffer =>
    let r := read_to_end rest rerr (buffer ++ c)
    (r.fst, .readChunk c :: r.snd)

/-- `Write::write_all(&buffer)`: writes the whole buffer, or fails. -/
def write_all (data : List Byte) : Option IoError →
    Except IoError Unit × List IoAction
  | none => (.ok (), [.writeAll data])
  | some e => (.error e, [])

/-- A unit of work dispatched by the loop: the converted socket (its
script) and the buffer moved into the closure. -/
structure SpawnedTask where
  socket : ConnScript
  buffer : List Byte
deriving DecidableEq

/-- The closure passed to `tokio::task::spawn_blocking`:
`socket.read_to_end(&mut buffer)?; socket.write_all(&buffer)?; Ok(())`.
Returns the task result and the trace of I/O actions on the
connection. -/
def runTask (t : SpawnedTask) : Except IoError Unit × List IoAction :=
  let r := read_to_end t.socket.reads t.socket.readErr t.buffer
  match r.fst with
  | .error e => (.error e, r.snd)
  | .ok buf =>
    let w := write_all buf t.socket.writeErr
    (w.fst, r.snd ++ w.snd)

/-- The bytes the peer reads back from the connection: the
concatenation of everything the task wrote. -/
def peerReceives (t : SpawnedTask) : List Byte :=
  ((runTask t).snd.filterMap fun a =>
    match a with
    | .writeAll d => some d
    | _ => none).flatten

/-- One iteration of `listener.accept().await` either yields a
connection (whose handle conversions may then fail) or fails. -/
structure AcceptedSocket where
  intoStdErr : Option IoError
  setNonblockingErr : Option IoError
  script : ConnScript
deriving DecidableEq

inductive AcceptEvent
  | accepted (sock : AcceptedSocket)
  | acceptErr (e : IoError)
deriving DecidableEq

/-- The possible observations of the loop after a finite list of accept
events: still running, returned `Err e`, or returned `Ok` (the return
type `Result<(), anyhow::Error>` allows it). -/
inductive LoopOutcome
  | running
  | errored (e : IoError)
  | returnedOk
deriving DecidableEq

/-- The `echo` accept loop, over a finite list of accept events.  Each
iteration awaits `accept` (propagating its error with `?`), converts
the socket with `into_std()?` and `set_nonblocking(false)?` (each
propagating its error with `?`), creates a fresh buffer, dispatches the
blocking closure without awaiting it, and loops.  Returns the loop
outcome and the dispatched units of work in order. -/
def echo : List AcceptEvent → LoopOutcome × List SpawnedTask
  | [] => (.running, [])
  | .acceptErr e :: _ => (.errored e, [])
  | .accepted sock :: rest =>
    match sock.intoStdErr with
    | some e => (.errored e, [])
    | none =>
      match sock.setNonblockingErr with
      | some e => (.errored e, [])
      | none =>
        let buffer : List Byte := []
        let t := echo rest
        (t.fst, ⟨sock.script, buffer⟩ :: t.snd)

/-- The error, if any, with which one accept-loop iteration fails
before dispatch: the accept error, or the first handle-conversion
error. -/
def eventFails : AcceptEvent → Option IoError
  | .acceptErr e => some e
  | .accepted sock =>
    match sock.intoStdErr with
    | some e => some e
    | none => sock.setNonblockingErr

/-- The first pre-dispatch failure in a list of accept events. -/
def firstFailure (es : List AcceptEvent) : Option IoError :=
  es.findSome? eventFails

/-- Whether an event is an accept-time failure of the listening
endpoint. -/
def isAcceptFailure : AcceptEvent → Bool
  | .acceptErr _ => true
  | .accepted _ => false

/-- The scripts of the connections a list of events accepts. -/
def acceptedScripts : List AcceptEvent → List ConnScript :=
  List.filterMap fun ev =>
    match ev with
    | .accepted sock => some sock.script
    | .acceptErr _ => none

/-- Replace every accepted connection's script, leaving the accept and
conversion outcomes untouched. -/
def mapScripts (f : ConnScript → ConnScript) : List AcceptEvent → List AcceptEvent :=
  List.map fun ev =>
    match ev with
    | .accepted sock => .accepted ⟨sock.intoStdErr, sock.setNonblockingErr, f sock.script⟩
    | .acceptErr e => .acceptErr e

/-- An accept event whose handle conversions succeed. -/
def cleanAccept (s : ConnScript) : AcceptEvent :=
  .accepted ⟨none, none, s⟩

/-- What each peer of a batch of cleanly accepted connections reads
back, in connection order. -/
def echoOutputs (ps : List ConnScript) : List (List Byte) :=
  ((echo (ps.map cleanAccept)).snd).map peerReceives

/- ## `TicketTitle` (title.rs) -/

/-- A Rust string, as its underlying byte sequence (`len` and
`is_empty` act on bytes). -/
abbrev RustString := List Byte

/-- `str::to_owned`: an owned copy of the same bytes. -/
def to_owned (value : RustString) : RustString := value

structure TicketTitle where
  val : RustString
deriving DecidableEq

inductive TicketTitleError
  | EmptyDescription
  | TooLongDescription
deriving DecidableEq

/-- `impl TryFrom<String> for TicketTitle`: the first matching guard
wins — `value.len() > 500`, then `value.is_empty()`, else `Ok`. -/
def TicketTitle.tryFromString (value : RustString) : Except TicketTitleError TicketTitle :=
  if value.length > 500 then .error .TooLongDescription
  else if value.isEmpty then .error .EmptyDescription
  else .ok ⟨value⟩

/-- `impl TryFrom<&str> for TicketTitle`: same guards, wrapping
`value.to_owned()`. -/
def TicketTitle.tryFromStr (value : RustString) : Except TicketTitleError TicketTitle :=
  if value.length > 500 then .error .TooLongDescription
  else if value.isEmpty then .error .EmptyDescription
  else .ok ⟨to_owned value⟩

/- ## Basic lemmas -/

lemma read_to_end_ok (reads : List (List Byte)) (b : List Byte) :
    read_to_end reads none b =
      (.ok (b ++ reads.flatten), reads.map IoAction.readChunk ++ [IoAction.readEof]) := by
  induction reads generalizing b with
  | nil => simp [read_to_end]
  | cons c rest ih => simp [read_to_end, ih, List.append_assoc]

lemma read_to_end_err (reads : List (List Byte)) (e : IoError) (b : List Byte) :
    read_to_end reads (some e) b = (.error e, reads.map IoAction.readChunk) := by
  induction reads generalizing b with
  | nil => simp [read_to_end]
  | cons c rest ih => simp [read_to_end, ih]

lemma runTask_ok (s : ConnScript) (b : List Byte) (hr : s.readErr = none)
    (hw : s.writeErr = none) :
    runTask ⟨s, b⟩ =
      (.ok (), s.reads.map IoAction.readChunk ++
        [IoAction.readEof, IoAction.writeAll (b ++ s.reads.flatten)]) := by
  simp [runTask, hr, hw, read_to_end_ok, write_all]

lemma runTask_readErr (s : ConnScript) (b : List Byte) (e : IoError)
    (hr : s.readErr = some e) :
    runTask ⟨s, b⟩ = (.error e, s.reads.map IoAction.readChunk) := by
  simp [runTask, hr, read_to_end_err]

lemma runTask_writeErr (s : ConnScript) (b : List Byte) (e : IoError)
    (hr : s.readErr = none) (hw : s.writeErr = some e) :
    runTask ⟨s, b⟩ =
      (.error e, s.reads.map IoAction.readChunk ++ [IoAction.readEof]) := by
  simp [runTask, hr, hw, read_to_end_ok, write_all]

lemma peerReceives_clean (s : ConnScript) (hr : s.readErr = none)
    (hw : s.writeErr = none) :
    peerReceives ⟨s, []⟩ = s.reads.flatten := by
  simp [peerReceives, runTask_ok s [] hr hw, List.filterMap_append,
    List.filterMap_map]

lemma echo_cons_clean (sock : AcceptedSocket) (rest : List AcceptEvent)
    (h1 : sock.intoStdErr = none) (h2 : sock.setNonblockingErr = none) :
    echo (.accepted sock :: rest) =
      ((echo rest).fst, ⟨sock.script, []⟩ :: (echo rest).snd) := by
  simp [echo, h1, h2]

lemma echo_all_clean (es : List AcceptEvent)
    (h : ∀ ev ∈ es, eventFails ev = none) :
    echo es = (.running, (acceptedScripts es).map fun s => ⟨s, []⟩) := by
  induction es with
  | nil => simp [echo, acceptedScripts]
  | cons ev rest ih =>
    have hev := h ev (List.mem_cons_self ev rest)
    have hrest : ∀ e ∈ rest, eventFails e = none := fun e he =>
      h e (List.mem_cons_of_mem ev he)
    cases ev with
    | acceptErr e => simp [eventFails] at hev
    | accepted sock =>
      have h1 : sock.intoStdErr = none := by
        cases hi : sock.intoStdErr with
        | none => rfl
        | some e => simp [eventFails, hi] at hev
      have h2 : sock.setNonblockingErr = none := by
        simp [eventFails, h1] at hev
        exact hev
      rw [echo_cons_clean sock rest h1 h2, ih hrest]
      simp [acceptedScripts]

lemma eventFails_none (ev : AcceptEvent) (h : eventFails ev = none) :
    ∃ sock, ev = .accepted sock ∧ sock.intoStdErr = none ∧
      sock.setNonblockingErr = none := by
  cases ev with
  | acceptErr e => simp [eventFails] at h
  | accepted sock =>
    refine ⟨sock, rfl, ?_, ?_⟩
    · cases hi : sock.intoStdErr with
      | none => rfl
      | some e => simp [eventFails, hi] at h
    · cases hi : sock.intoStdErr with
      | none => simpa [eventFails, hi] using h
      | some e => simp [eventFails, hi] at h

lemma echo_cons_fail (ev : AcceptEvent) (rest : List AcceptEvent) (e : IoError)
    (h : eventFails ev = some e) :
    echo (ev :: rest) = (.errored e, []) := by
  cases ev with
  | acceptErr x =>
    simp [eventFails] at h
    simp [echo, h]
  | accepted sock =>
    cases hi : sock.intoStdErr with
    | some x =>
      simp [eventFails, hi] at h
      simp [echo, hi, h]
    | none =>
      simp [eventFails, hi] at h
      simp [echo, hi, h]

/-- C1: for every byte sequence S (the empty one included), however the
transport splits it into chunks, the dispatched echo work for a
connection whose peer sends S and then shuts down its write side
completes cleanly and writes back exactly S, byte for byte, so reading
the connection to end-of-stream yields exactly S. -/
theorem echo_roundtrip (S : List Byte) (chunks : List (List Byte))
    (h : chunks.flatten = S) :
    peerReceives ⟨⟨chunks, none, none⟩, []⟩ = S ∧
    (runTask ⟨⟨chunks, none, none⟩, []⟩).fst = .ok () := by
  constructor
  · rw [peerReceives_clean ⟨chunks, none, none⟩ rfl rfl]
    exact h
  · rw [runTask_ok ⟨chunks, none, none⟩ [] rfl rfl]

theorem echo_roundtrip_witness :
    List.flatten [[1], [2, 3]] = [1, 2, 3] ∧
    (peerReceives ⟨⟨[[1], [2, 3]], none, none⟩, []⟩ = [1, 2, 3] ∧
      (runTask ⟨⟨[[1], [2, 3]], none, none⟩, []⟩).fst = .ok ()) :=
  ⟨by decide, echo_roundtrip [1, 2, 3] [[1], [2, 3]] (by decide)⟩

/-- C2: the accept loop dispatches each connection's echo work without
awaiting or joining it: replacing every dispatched connection's echo
behaviour (what it reads, how long it blocks for, whether it fails) by
any other behaviour leaves the loop's own outcome unchanged and leaves
the loop dispatching exactly the same sequence of connections, so the
loop keeps accepting while prior echo work is still in progress. -/
theorem accept_loop_fire_and_forget (f : ConnScript → ConnScript)
    (es : List AcceptEvent) :
    (echo (mapScripts f es)).fst = (echo es).fst ∧
    (echo (mapScripts f es)).snd =
      (echo es).snd.map fun t => ⟨f t.socket, t.buffer⟩ := by
  induction es with
  | nil => simp [mapScripts, echo]
  | cons ev rest ih =>
    cases ev with
    | acceptErr e => simp [mapScripts, echo]
    | accepted sock =>
      cases hi : sock.intoStdErr with
      | some e => simp [mapScripts, echo, hi]
      | none =>
        cases hn : sock.setNonblockingErr with
        | some e => simp [mapScripts, echo, hi, hn]
        | none =>
          simp only [mapScripts, List.map_cons] at ih ⊢
          rw [echo_cons_clean sock rest hi hn,
            echo_cons_clean ⟨sock.intoStdErr, sock.setNonblockingErr, f sock.script⟩
              _ hi hn]
          simp only [List.map_cons]
          exact ⟨ih.1, by rw [ih.2]⟩

/-- C6: any bytes the echo work writes back on a connection are the
fully populated buffer — exactly the concatenation of every chunk the
peer sent — and the write happens only after the read side is
exhausted (every read, then the end-of-input signal, precede it); the
read phase and the write phase never interleave. -/
theorem write_after_full_read (s : ConnScript) (d : List Byte)
    (h : IoAction.writeAll d ∈ (runTask ⟨s, []⟩).snd) :
    d = s.reads.flatten ∧ s.readErr = none ∧
    (runTask ⟨s, []⟩).snd =
      s.reads.map IoAction.readChunk ++ [IoAction.readEof, IoAction.writeAll d] := by
  cases hr : s.readErr with
  | some e =>
    rw [runTask_readErr s [] e hr] at h
    simp at h
  | none =>
    cases hw : s.writeErr with
    | some e =>
      rw [runTask_writeErr s [] e hr hw] at h
      simp at h
    | none =>
      rw [runTask_ok s [] hr hw] at h
      have hd : d = s.reads.flatten := by
        simp at h
        exact h
      subst hd
      exact ⟨rfl, rfl, by rw [runTask_ok s [] hr hw]; simp⟩

theorem write_after_full_read_witness :
    IoAction.writeAll [1, 2] ∈ (runTask ⟨⟨[[1], [2]], none, none⟩, []⟩).snd ∧
    ([1, 2] = List.flatten [[1], [2]] ∧ (none : Option IoError) = none ∧
      (runTask ⟨⟨[[1], [2]], none, none⟩, []⟩).snd =
        [[1], [2]].map IoAction.readChunk ++
          [IoAction.readEof, IoAction.writeAll [1, 2]]) :=
  ⟨by decide, write_after_full_read ⟨[[1], [2]], none, none⟩ [1, 2] (by decide)⟩

/-- C7: the accept loop never returns a success value: after any finite
list of accept events it is either still running or has returned an
error, never `Ok`. -/
theorem accept_loop_never_ok (es : List AcceptEvent) :
    (echo es).fst ≠ .returnedOk := by
  induction es with
  | nil => simp [echo]
  | cons ev rest ih =>
    cases ev with
    | acceptErr e => simp [echo]
    | accepted sock =>
      cases hi : sock.intoStdErr with
      | some e => simp [echo, hi]
      | none =>
        cases hn : sock.setNonblockingErr with
        | some e => simp [echo, hi, hn]
        | none =>
          rw [echo_cons_clean sock rest hi hn]
          exact ih

/-- C3 as stated is false: a handle-conversion failure terminates the
accept loop itself and is returned to its caller.  Concretely, when the
first accepted connection's `into_std()` fails, the loop returns that
error and a second, perfectly healthy connection is never dispatched. -/
theorem conversion_failure_kills_loop :
    echo [.accepted ⟨some ⟨"into_std failed"⟩, none, ⟨[], none, none⟩⟩,
          cleanAccept ⟨[[7]], none, none⟩] =
      (.errored ⟨"into_std failed"⟩, []) := by
  rfl

/-- C3 amended: a handle-conversion failure (from `into_std` or
`set_nonblocking`) terminates the whole accept loop, not just that
connection: the failing connection is never dispatched, no later
connection is accepted, and the error is propagated to the loop's
caller; connections accepted before it stay dispatched. -/
theorem conversion_failure_propagates (pre : List AcceptEvent)
    (sock : AcceptedSocket) (rest : List AcceptEvent) (e : IoError)
    (hpre : ∀ ev ∈ pre, eventFails ev = none)
    (hconv : eventFails (.accepted sock) = some e) :
    echo (pre ++ .accepted sock :: rest) =
      (.errored e, (acceptedScripts pre).map fun s => ⟨s, []⟩) := by
  induction pre with
  | nil =>
    rw [List.nil_append, echo_cons_fail _ rest e hconv]
    simp [acceptedScripts]
  | cons ev pres ih =>
    obtain ⟨sock2, rfl, h1, h2⟩ :=
      eventFails_none ev (hpre ev (List.mem_cons_self ev pres))
    have hpres : ∀ x ∈ pres, eventFails x = none := fun x hx =>
      hpre x (List.mem_cons_of_mem _ hx)
    rw [List.cons_append, echo_cons_clean sock2 _ h1 h2, ih hpres]
    simp [acceptedScripts]

theorem conversion_failure_propagates_witness :
    (∀ ev ∈ [cleanAccept ⟨[[9]], none, none⟩], eventFails ev = none) ∧
    eventFails (.accepted ⟨none, some ⟨"nb"⟩, ⟨[], none, none⟩⟩) = some ⟨"nb"⟩ ∧
    echo ([cleanAccept ⟨[[9]], none, none⟩] ++
        .accepted ⟨none, some ⟨"nb"⟩, ⟨[], none, none⟩⟩ :: [cleanAccept ⟨[[3]], none, none⟩]) =
      (.errored ⟨"nb"⟩,
        (acceptedScripts [cleanAccept ⟨[[9]], none, none⟩]).map fun s => ⟨s, []⟩) :=
  ⟨by decide, by decide,
    conversion_failure_propagates [cleanAccept ⟨[[9]], none, none⟩]
      ⟨none, some ⟨"nb"⟩, ⟨[], none, none⟩⟩ [cleanAccept ⟨[[3]], none, none⟩]
      ⟨"nb"⟩ (by decide) (by decide)⟩

/-- C4 as stated (the loop returns if and only if an accept-time
failure of the listening endpoint occurs) is false: here no event is an
accept-time failure, yet the loop returns, because a handle conversion
fails. -/
theorem loop_returns_without_accept_failure :
    (echo [.accepted ⟨some ⟨"conversion error"⟩, none, ⟨[], none, none⟩⟩]).fst =
      .errored ⟨"conversion error"⟩ ∧
    ∀ ev ∈ [AcceptEvent.accepted ⟨some ⟨"conversion error"⟩, none, ⟨[], none, none⟩⟩],
      isAcceptFailure ev = false := by
  exact ⟨rfl, by decide⟩

/-- C4 amended: the accept loop returns exactly when an accept-time
failure or a handle-conversion failure occurs, and it returns the first
such error to its caller; with no such failure it keeps running. -/
theorem accept_loop_return_condition (es : List AcceptEvent) :
    (echo es).fst =
      (match firstFailure es with
       | none => .running
       | some e => .errored e) := by
  induction es with
  | nil => simp [echo, firstFailure]
  | cons ev rest ih =>
    cases hf : eventFails ev with
    | some e =>
      rw [echo_cons_fail ev rest e hf]
      simp [firstFailure, List.findSome?_cons, hf]
    | none =>
      obtain ⟨sock, rfl, h1, h2⟩ := eventFails_none ev hf
      rw [echo_cons_clean sock rest h1 h2]
      simp only [firstFailure, List.findSome?_cons, hf] at ih ⊢
      exact ih

/-- C5: a read or write error inside the dispatched echo work is
contained to that unit of work: as long as accepts and handle
conversions succeed, the loop keeps running whatever the connections'
read/write behaviour (failures included), every accepted connection is
still dispatched with its own fresh buffer, and no error value ever
surfaces as the loop's result. -/
theorem io_error_contained (es : List AcceptEvent)
    (h : ∀ ev ∈ es, eventFails ev = none) :
    (echo es).fst = .running ∧
    (echo es).snd = (acceptedScripts es).map (fun s => ⟨s, []⟩) ∧
    ∀ e : IoError, (echo es).fst ≠ .errored e := by
  have hall := echo_all_clean es h
  refine ⟨by rw [hall], by rw [hall], ?_⟩
  intro e
  rw [hall]
  simp

theorem io_error_contained_witness :
    (∀ ev ∈ [cleanAccept ⟨[[1]], some ⟨"connection reset"⟩, none⟩,
             cleanAccept ⟨[[2]], none, some ⟨"broken pipe"⟩⟩],
      eventFails ev = none) ∧
    ((echo [cleanAccept ⟨[[1]], some ⟨"connection reset"⟩, none⟩,
            cleanAccept ⟨[[2]], none, some ⟨"broken pipe"⟩⟩]).fst = .running ∧
     (echo [cleanAccept ⟨[[1]], some ⟨"connection reset"⟩, none⟩,
            cleanAccept ⟨[[2]], none, some ⟨"broken pipe"⟩⟩]).snd =
       (acceptedScripts [cleanAccept ⟨[[1]], some ⟨"connection reset"⟩, none⟩,
            cleanAccept ⟨[[2]], none, some ⟨"broken pipe"⟩⟩]).map (fun s => ⟨s, []⟩) ∧
     ∀ e : IoError,
       (echo [cleanAccept ⟨[[1]], some ⟨"connection reset"⟩, none⟩,
              cleanAccept ⟨[[2]], none, some ⟨"broken pipe"⟩⟩]).fst ≠ .errored e) :=
  ⟨by decide,
    io_error_contained [cleanAccept ⟨[[1]], some ⟨"connection reset"⟩, none⟩,
      cleanAccept ⟨[[2]], none, some ⟨"broken pipe"⟩⟩] (by decide)⟩

lemma echo_cleanAccepts (ps : List ConnScript) :
    echo (ps.map cleanAccept) = (.running, ps.map fun s => ⟨s, []⟩) := by
  induction ps with
  | nil => simp [echo]
  | cons s rest ih =>
    rw [List.map_cons, cleanAccept, echo_cons_clean ⟨none, none, s⟩ _ rfl rfl, ih]
    simp

lemma echoOutputs_eq (ps : List ConnScript) :
    echoOutputs ps = ps.map fun s => peerReceives ⟨s, []⟩ := by
  rw [echoOutputs, echo_cleanAccepts, List.map_map]
  rfl

lemma echoOutputs_getD (ps : List ConnScript) (i : Nat) (hi : i < ps.length) :
    (echoOutputs ps).getD i [] = peerReceives ⟨ps.getD i ⟨[], none, none⟩, []⟩ := by
  rw [echoOutputs_eq, List.getD_eq_getElem?_getD, List.getElem?_map,
    List.getElem?_eq_getElem hi, List.getD_eq_getElem?_getD,
    List.getElem?_eq_getElem hi]
  rfl

/-- C8: for any batch of concurrently accepted peers, a peer whose own
connection behaves cleanly reads back exactly its own payload — the
concatenation of the chunks it sent — and what it reads back depends
only on its own connection: any other batch that agrees on that one
connection (whatever the other peers send) produces the identical
response for it.  Each unit of work is dispatched with its own fresh
private buffer, so there is no cross-contamination. -/
theorem peer_isolation (ps : List ConnScript) (i : Nat) (hi : i < ps.length)
    (hr : (ps.getD i ⟨[], none, none⟩).readErr = none)
    (hw : (ps.getD i ⟨[], none, none⟩).writeErr = none) :
    (echoOutputs ps).getD i [] = (ps.getD i ⟨[], none, none⟩).reads.flatten ∧
    ∀ qs : List ConnScript, i < qs.length →
      qs.getD i ⟨[], none, none⟩ = ps.getD i ⟨[], none, none⟩ →
      (echoOutputs qs).getD i [] = (echoOutputs ps).getD i [] := by
  constructor
  · rw [echoOutputs_getD ps i hi, peerReceives_clean _ hr hw]
  · intro qs hq hagree
    rw [echoOutputs_getD qs i hq, echoOutputs_getD ps i hi, hagree]

theorem peer_isolation_witness :
    0 < List.length [ConnScript.mk [[1]] none none, ⟨[[2, 2]], none, none⟩] ∧
    (([ConnScript.mk [[1]] none none, ⟨[[2, 2]], none, none⟩].getD 0
        ⟨[], none, none⟩).readErr = none) ∧
    ((echoOutputs [ConnScript.mk [[1]] none none, ⟨[[2, 2]], none, none⟩]).getD 0 [] =
      ([ConnScript.mk [[1]] none none, ⟨[[2, 2]], none, none⟩].getD 0
        ⟨[], none, none⟩).reads.flatten ∧
     ∀ qs : List ConnScript, 0 < qs.length →
       qs.getD 0 ⟨[], none, none⟩ =
         [ConnScript.mk [[1]] none none, ⟨[[2, 2]], none, none⟩].getD 0 ⟨[], none, none⟩ →
       (echoOutputs qs).getD 0 [] =
         (echoOutputs [ConnScript.mk [[1]] none none, ⟨[[2, 2]], none, none⟩]).getD 0 []) :=
  ⟨by decide, rfl,
    peer_isolation [ConnScript.mk [[1]] none none, ⟨[[2, 2]], none, none⟩] 0
      (by decide) rfl rfl⟩

/-- C9: the `String` conversion for `TicketTitle` fails with
`EmptyDescription` exactly on the empty string, fails with
`TooLongDescription` exactly when the byte length exceeds 500, and on
every other input — lengths 51 to 500 included — returns `Ok` wrapping
the input unchanged. -/
theorem tryFromString_spec (s : RustString) :
    (TicketTitle.tryFromString s = .error .EmptyDescription ↔ s = []) ∧
    (TicketTitle.tryFromString s = .error .TooLongDescription ↔ 500 < s.length) ∧
    (s ≠ [] → s.length ≤ 500 → TicketTitle.tryFromString s = .ok ⟨s⟩) := by
  by_cases h1 : 500 < s.length
  · have hne : s ≠ [] := by
      intro h
      rw [h] at h1
      simp at h1
    simp [TicketTitle.tryFromString, h1, hne]
  · by_cases h2 : s = []
    · subst h2
      simp [TicketTitle.tryFromString]
    · simp [TicketTitle.tryFromString, h1, h2]

theorem tryFromString_spec_witness :
    ([1] ≠ ([] : RustString)) ∧ List.length ([1] : RustString) ≤ 500 ∧
    TicketTitle.tryFromString [1] = .ok ⟨[1]⟩ :=
  ⟨by decide, by decide, (tryFromString_spec [1]).2.2 (by decide) (by decide)⟩

/-- C10: the `&str` conversion and the `String` conversion for
`TicketTitle` agree on every input: same `Ok` with the same wrapped
string, or the same error variant. -/
theorem tryFrom_str_string_agree (s : RustString) :
    TicketTitle.tryFromStr s = TicketTitle.tryFromString s := by
  simp [TicketTitle.tryFromStr, TicketTitle.tryFromString, to_owned]
